import Mathlib

/-!
Verification of the bijmantra genomic-relationship / mixed-model numeric core.

Shallow embedding conventions:
* `f32` / `f64` arithmetic is modelled by exact rational arithmetic (`ℚ`);
  all inputs probed by the claims keep every intermediate value exactly
  representable, so the rational model coincides with the float run there.
* Genotype buffers are `List ℕ` for the `u8` entry point
  (`genomics_kernel/src/gblup.rs`) and `List ℤ` for the `i32` entry point
  (`rust/src/matrix.rs`).
* Buffer indexing is `List.getD` with default `0`; every theorem that relies
  on in-range access carries the corresponding length hypothesis, and
  `rust/src/matrix.rs::calculate_grm`, which performs unchecked indexing,
  is modelled as an `Option` (`none` = index-out-of-bounds panic).
* `usize` multiplication cannot overflow in the `ℕ` model; `checked_mul`
  is therefore modelled as ordinary multiplication (the overflow branch of
  the Rust code is unreachable in the model).
* `f64::sqrt` is modelled by `sqrtQ`, exact on perfect squares (the only
  points at which any theorem below inspects its value).
* The external Fortran kernels of `rust/src/fortran_ffi.rs` are not part of
  the repository; each safe wrapper is parametrised by the kernel's output
  (status code and filled output buffers), so theorems quantify over every
  possible kernel behaviour.
-/

namespace Bijmantra

set_option maxRecDepth 1000000

attribute [local semireducible] Rat.mul Rat.add Rat.sub Rat.inv

/-- Integer square root by bounded search: the largest `r ≤ n` with
`r * r ≤ n` (structurally recursive, so concrete values reduce). -/
def isqrt (n : ℕ) : ℕ :=
  ((List.range (n + 1)).filter (fun r => r * r ≤ n)).foldl max 0

/-- Rational model of `f64::sqrt` (and `f32::sqrt`): exact on perfect
squares, a floor-style approximation elsewhere, `0` on non-positive input. -/
def sqrtQ (q : ℚ) : ℚ :=
  if q ≤ 0 then 0 else (isqrt (q.num.toNat * q.den) : ℚ) / (q.den : ℚ)

/-! ## `backend/crates/genomics_kernel/src/gblup.rs` -/

namespace GenomicsKernel

/-- `const MAX_GENOTYPE: u8 = 2`. -/
def MAX_GENOTYPE : ℕ := 2

/-- `const PLOIDY: f32 = 2.0`. -/
def PLOIDY : ℚ := 2

/-- Column `j` of the row-major `u8` genotype buffer
(`markers[ind_idx * n_markers + marker_idx]` for `ind_idx` in `0..n_individuals`). -/
def gbCol (markers : List ℕ) (n_markers n_individuals j : ℕ) : List ℕ :=
  (List.range n_individuals).map (fun i => markers.getD (i * n_markers + j) 0)

/-- Sum of the valid (`value <= MAX_GENOTYPE`) calls of one marker column,
accumulated in column order as in the Rust loop. -/
def colSum (col : List ℕ) : ℚ :=
  col.foldl (fun (s : ℚ) (v : ℕ) => if v ≤ MAX_GENOTYPE then s + (v : ℚ) else s) 0

/-- Count of valid calls of one marker column. -/
def colCount (col : List ℕ) : ℕ :=
  col.foldl (fun (c : ℕ) (v : ℕ) => if v ≤ MAX_GENOTYPE then c + 1 else c) 0

/-- Per-column allele frequency: `sum / (PLOIDY * count)` when `count > 0`,
otherwise `0` (the `freqs` vector is zero-initialised). -/
def colFreq (col : List ℕ) : ℚ :=
  if 0 < colCount col then colSum col / (PLOIDY * (colCount col : ℚ)) else 0

/-- Allele frequency of marker `j` as computed by `calculate_g_matrix`. -/
def freqAt (markers : List ℕ) (n_markers n_individuals j : ℕ) : ℚ :=
  colFreq (gbCol markers n_markers n_individuals j)

/-- The full `freqs` vector of `calculate_g_matrix`. -/
def freqs (markers : List ℕ) (n_markers n_individuals : ℕ) : List ℚ :=
  (List.range n_markers).map (freqAt markers n_markers n_individuals)

/-- The scaling denominator `2 * Σ p (1-p)` accumulated over markers with at
least one valid call and `0 < p < 1`, in marker order. -/
def scale (markers : List ℕ) (n_markers n_individuals : ℕ) : ℚ :=
  (List.range n_markers).foldl (fun s j =>
    let p := freqAt markers n_markers n_individuals j
    if 0 < colCount (gbCol markers n_markers n_individuals j) ∧ 0 < p ∧ p < 1
    then s + PLOIDY * p * (1 - p) else s) 0

/-- One entry of the centered matrix `Z`: a valid call contributes
`geno - PLOIDY * freq`, an invalid one contributes `0.0`. -/
def zEntry (markers : List ℕ) (n_markers n_individuals idx : ℕ) : ℚ :=
  if markers.getD idx 0 ≤ MAX_GENOTYPE then
    (markers.getD idx 0 : ℚ) -
      PLOIDY * freqAt markers n_markers n_individuals (idx % n_markers)
  else 0

/-- The flat centered matrix `z` (length `n_individuals * n_markers`). -/
def zList (markers : List ℕ) (n_markers n_individuals : ℕ) : List ℚ :=
  (List.range (n_individuals * n_markers)).map (zEntry markers n_markers n_individuals)

/-- Row-`i` / row-`j` dot product over the `n_markers` marker axis, accumulated
in marker order as in the Rust inner loop. -/
def gDot (z : List ℚ) (n_markers i j : ℕ) : ℚ :=
  (List.range n_markers).foldl
    (fun s k => s + z.getD (i * n_markers + k) 0 * z.getD (j * n_markers + k) 0) 0

/-- Model of `calculate_g_matrix` (gblup.rs lines 19-111).  Returns `[]` for a
zero dimension or a length mismatch, the zero matrix when the scaling
denominator is `0`, and otherwise the flat row-major `G = ZZ' / scale`.
Every output entry `(i, j)` is computed independently with the same fixed
marker iteration order (both the rayon and the wasm loop do exactly this). -/
def calculate_g_matrix (markers : List ℕ) (n_markers n_individuals : ℕ) : List ℚ :=
  if n_markers = 0 ∨ n_individuals = 0 then []
  else if markers.length ≠ n_markers * n_individuals then []
  else if scale markers n_markers n_individuals = 0 then
    List.replicate (n_individuals * n_individuals) 0
  else
    let z := zList markers n_markers n_individuals
    (List.range (n_individuals * n_individuals)).map (fun idx =>
      gDot z n_markers (idx / n_individuals) (idx % n_individuals)
        / scale markers n_markers n_individuals)

end GenomicsKernel

/-! ## `rust/src/matrix.rs` -/

namespace Wasm

/-- Sum of the valid (`geno >= 0`) calls of one `i32` marker column. -/
def colSumZ (col : List ℤ) : ℚ :=
  col.foldl (fun (s : ℚ) (v : ℤ) => if 0 ≤ v then s + (v : ℚ) else s) 0

/-- Count of valid (`geno >= 0`) calls of one `i32` marker column. -/
def colCountZ (col : List ℤ) : ℕ :=
  col.foldl (fun (c : ℕ) (v : ℤ) => if 0 ≤ v then c + 1 else c) 0

/-- Per-column allele frequency of `calculate_grm`:
`sum / (2.0 * count)` when `count > 0`, else `0`. -/
def colFreqZ (col : List ℤ) : ℚ :=
  if 0 < colCountZ col then colSumZ col / (2 * (colCountZ col : ℚ)) else 0

/-- Column `j` of the row-major `i32` genotype buffer
(`genotypes[i * n_markers + j]` for `i` in `0..n_samples`). -/
def grmCol (genotypes : List ℤ) (n_samples n_markers j : ℕ) : List ℤ :=
  (List.range n_samples).map (fun i => genotypes.getD (i * n_markers + j) 0)

/-- The `freqs` vector of `calculate_grm`. -/
def grmFreqs (genotypes : List ℤ) (n_samples n_markers : ℕ) : List ℚ :=
  (List.range n_markers).map (fun j => colFreqZ (grmCol genotypes n_samples n_markers j))

/-- The raw scaling factor `2 * Σ p (1-p)` over markers with `0 < p < 1`,
before the zero fallback. -/
def grmScaleRaw (genotypes : List ℤ) (n_samples n_markers : ℕ) : ℚ :=
  (List.range n_markers).foldl (fun s j =>
    let p := colFreqZ (grmCol genotypes n_samples n_markers j)
    if 0 < p ∧ p < 1 then s + 2 * p * (1 - p) else s) 0

/-- The scaling factor actually divided by: `calculate_grm` replaces an exact
zero by `1.0` and keeps computing (it does NOT return a zero matrix early). -/
def grmScale (genotypes : List ℤ) (n_samples n_markers : ℕ) : ℚ :=
  if grmScaleRaw genotypes n_samples n_markers = 0 then 1
  else grmScaleRaw genotypes n_samples n_markers

/-- `markers_used`: the number of markers with `0 < p < 1`. -/
def grmMarkersUsed (genotypes : List ℤ) (n_samples n_markers : ℕ) : ℕ :=
  (List.range n_markers).foldl (fun c j =>
    let p := colFreqZ (grmCol genotypes n_samples n_markers j)
    if 0 < p ∧ p < 1 then c + 1 else c) 0

/-- The flat centered matrix `z` of `calculate_grm`: valid calls contribute
`geno - 2 * freqs[j]`, negative (missing) calls contribute `0.0`. -/
def grmZ (genotypes : List ℤ) (n_samples n_markers : ℕ) : List ℚ :=
  (List.range (n_samples * n_markers)).map (fun idx =>
    if 0 ≤ genotypes.getD idx 0 then
      (genotypes.getD idx 0 : ℚ) -
        2 * colFreqZ (grmCol genotypes n_samples n_markers (idx % n_markers))
    else 0)

/-- Row-`i` / row-`j` dot product over markers, in marker order. -/
def grmDot (z : List ℚ) (n_markers i j : ℕ) : ℚ :=
  (List.range n_markers).foldl
    (fun s k => s + z.getD (i * n_markers + k) 0 * z.getD (j * n_markers + k) 0) 0

/-- Result struct of `calculate_grm` (matrix.rs `GRMResult`). -/
structure GRMResult where
  matrix : List ℚ
  n_samples : ℕ
  n_markers_used : ℕ
  mean_diagonal : ℚ
  mean_off_diagonal : ℚ
deriving Repr, DecidableEq

/-- Sum of the strict upper triangle of the flat `n × n` matrix, in the
Rust iteration order. -/
def offDiagSum (grm : List ℚ) (n : ℕ) : ℚ :=
  (List.range n).foldl (fun s i =>
    (List.range n).foldl (fun s2 j => if i < j then s2 + grm.getD (i * n + j) 0 else s2) s) 0

/-- Model of `calculate_grm` (matrix.rs lines 21-107).  The Rust function
performs NO validation of the buffer length against
`n_samples * n_markers`: a buffer shorter than `n_samples * n_markers`
(with both dimensions positive) makes it index out of bounds — a panic,
modelled as `none` — while a longer buffer is silently processed using only
its first `n_samples * n_markers` entries.  The `G` buffer is filled by
computing the upper triangle (`j` from `i`) and mirroring, so entry
`(i, j)` holds the dot product of rows `min i j` and `max i j`.
`mean_diagonal` divides by `n_samples` (ℚ division by zero yields `0`
where the float code would yield NaN; no claim touches that field). -/
def calculate_grm (genotypes : List ℤ) (n_samples n_markers : ℕ) : Option GRMResult :=
  if 0 < n_samples ∧ 0 < n_markers ∧ genotypes.length < n_samples * n_markers then none
  else
    let z := grmZ genotypes n_samples n_markers
    let sc := grmScale genotypes n_samples n_markers
    let grm := (List.range (n_samples * n_samples)).map (fun idx =>
      grmDot z n_markers (min (idx / n_samples) (idx % n_samples))
        (max (idx / n_samples) (idx % n_samples)) / sc)
    let diag_sum := (List.range n_samples).foldl
      (fun s i => s + grm.getD (i * n_samples + i) 0) 0
    let off_count := n_samples * (n_samples - 1) / 2
    some
      { matrix := grm
        n_samples := n_samples
        n_markers_used := grmMarkersUsed genotypes n_samples n_markers
        mean_diagonal := diag_sum / (n_samples : ℚ)
        mean_off_diagonal :=
          if 0 < off_count then offDiagSum grm n_samples / (off_count : ℚ) else 0 }

end Wasm

/-! ## `rust/src/statistics.rs` (`estimate_gblup`) -/

namespace Wasm

/-- The numeric-zero threshold of the Gauss-Seidel diagonal test, the model
of the `f64` literal `1e-10`. -/
def gsEps : ℚ := 1 / 10 ^ 10

/-- Result struct of `estimate_gblup` (statistics.rs `GBLUPResult`). -/
structure GBLUPResult where
  gebv : List ℚ
  reliability : List ℚ
  accuracy : List ℚ
  mean : ℚ
  genetic_variance : ℚ
  residual_variance : ℚ
deriving Repr, DecidableEq

/-- Sum of the non-missing phenotypes (`NaN` is modelled as `none`). -/
def phenSum (phenotypes : List (Option ℚ)) : ℚ :=
  phenotypes.foldl (fun s p => match p with | some x => s + x | none => s) 0

/-- Count of the non-missing phenotypes. -/
def phenCount (phenotypes : List (Option ℚ)) : ℕ :=
  phenotypes.foldl (fun c p => match p with | some _ => c + 1 | none => c) 0

/-- One in-place Gauss-Seidel sweep over indices `0..n` in order: the running
sum starts at `rhs[i]` and subtracts `coef[i][j] * u[j]` for `j ≠ i`, using
already-updated entries of `u`; the write happens only when
`coef[i][i].abs() > 1e-10`. -/
def gsSweep (C : ℕ → ℕ → ℚ) (r : ℕ → ℚ) (n : ℕ) (u : List ℚ) : List ℚ :=
  (List.range n).foldl (fun u i =>
    let s := (List.range n).foldl
      (fun s j => if j ≠ i then s - C i j * u.getD j 0 else s) (r i)
    if gsEps < |C i i| then u.set i (s / C i i) else u) u

/-- `fuel` fixed Gauss-Seidel sweeps (the Rust `for _ in 0..100` loop has no
convergence check). -/
def gsIter (C : ℕ → ℕ → ℚ) (r : ℕ → ℚ) (n : ℕ) : ℕ → List ℚ → List ℚ
  | 0, u => u
  | fuel + 1, u => gsIter C r n fuel (gsSweep C r n u)

/-- The variance ratio `λ = (1 - h²) / h²` (`heritability` is `h²`). -/
def gblupLambda (heritability : ℚ) : ℚ := (1 - heritability) / heritability

/-- Mean of the non-missing phenotypes (`0` when every phenotype is missing). -/
def gblupMean (phenotypes : List (Option ℚ)) : ℚ :=
  if 0 < phenCount phenotypes then phenSum phenotypes / (phenCount phenotypes : ℚ)
  else 0

/-- The right-hand side `y - mean` of the mixed-model system (missing → `0`). -/
def gblupRhs (phenotypes : List (Option ℚ)) : List ℚ :=
  phenotypes.map (fun p => match p with
    | some x => x - gblupMean phenotypes
    | none => 0)

/-- The flat coefficient matrix `G + λI` built by `estimate_gblup`. -/
def gblupCoef (grm : List ℚ) (n : ℕ) (lam : ℚ) : List ℚ :=
  (List.range (n * n)).map (fun idx =>
    grm.getD idx 0 + if idx / n = idx % n then lam else 0)

/-- Model of `estimate_gblup` (statistics.rs lines 99-182): mean and variance
over non-missing phenotypes, coefficient matrix `G + λI` with
`λ = (1 - h²) / h²`, right-hand side `y - mean` (missing → `0`), then 100
Gauss-Seidel sweeps starting from the zero vector. -/
def estimate_gblup (phenotypes : List (Option ℚ)) (grm : List ℚ)
    (n_individuals : ℕ) (heritability : ℚ) : GBLUPResult :=
  let lam := gblupLambda heritability
  let count := phenCount phenotypes
  let mean := gblupMean phenotypes
  let var_sum := phenotypes.foldl
    (fun s p => match p with | some x => s + (x - mean) ^ 2 | none => s) 0
  let total_variance := if 1 < count then var_sum / ((count - 1 : ℕ) : ℚ) else 1
  let coefL := gblupCoef grm n_individuals lam
  let rhs := gblupRhs phenotypes
  let gebv := gsIter (fun i j => coefL.getD (i * n_individuals + j) 0)
    (fun i => rhs.getD i 0) n_individuals 100 (List.replicate n_individuals 0)
  let reliability := (List.range n_individuals).map (fun i =>
    let diag := grm.getD (i * n_individuals + i) 0
    min (max (1 - lam / (diag + lam)) 0) (99 / 100))
  { gebv := gebv
    reliability := reliability
    accuracy := reliability.map sqrtQ
    mean := mean
    genetic_variance := total_variance * heritability
    residual_variance := total_variance * (1 - heritability) }

/-- Gauss-Seidel sweep exactly as the claim words it, with the STRICT skip
condition `|C[i][i]| < 1e-10`: this is the claim's literal reading, used to
exhibit the divergence from the code (which skips also at equality). -/
def gsSweepSpecLt (C : ℕ → ℕ → ℚ) (r : ℕ → ℚ) (n : ℕ) (u : List ℚ) : List ℚ :=
  (List.range n).foldl (fun u i =>
    if |C i i| < gsEps then u
    else u.set i
      ((r i - (((List.range n).filter (fun j => j ≠ i)).map
          (fun j => C i j * u.getD j 0)).sum) / C i i)) u

/-- Gauss-Seidel sweep as the claim words it, amended so that the update is
skipped exactly when `|C[i][i]| ≤ 1e-10` (the code updates only on
`abs > 1e-10`). -/
def gsSweepSpecLe (C : ℕ → ℕ → ℚ) (r : ℕ → ℚ) (n : ℕ) (u : List ℚ) : List ℚ :=
  (List.range n).foldl (fun u i =>
    if |C i i| ≤ gsEps then u
    else u.set i
      ((r i - (((List.range n).filter (fun j => j ≠ i)).map
          (fun j => C i j * u.getD j 0)).sum) / C i i)) u

/-- Iterated claim-worded sweeps, strict-skip variant. -/
def gsIterSpecLt (C : ℕ → ℕ → ℚ) (r : ℕ → ℚ) (n : ℕ) : ℕ → List ℚ → List ℚ
  | 0, u => u
  | fuel + 1, u => gsIterSpecLt C r n fuel (gsSweepSpecLt C r n u)

/-- Iterated claim-worded sweeps, skip-at-or-below-threshold variant. -/
def gsIterSpecLe (C : ℕ → ℕ → ℚ) (r : ℕ → ℚ) (n : ℕ) : ℕ → List ℚ → List ℚ
  | 0, u => u
  | fuel + 1, u => gsIterSpecLe C r n fuel (gsSweepSpecLe C r n u)

/-- The claim's described solver (strict `<` skip): `u = 0`, a fixed number
of sweeps of `(G + λI) u = r`. -/
def gaussSeidelSpecLt (C : ℕ → ℕ → ℚ) (r : ℕ → ℚ) (n sweeps : ℕ) : List ℚ :=
  gsIterSpecLt C r n sweeps (List.replicate n 0)

/-- The amended described solver (`≤` skip): `u = 0`, a fixed number of
sweeps of `(G + λI) u = r`. -/
def gaussSeidelSpecLe (C : ℕ → ℕ → ℚ) (r : ℕ → ℚ) (n sweeps : ℕ) : List ℚ :=
  gsIterSpecLe C r n sweeps (List.replicate n 0)

end Wasm

/-! ## `rust/src/matrix.rs` (`calculate_eigenvalues`) -/

namespace Wasm

/-- Result struct of `calculate_eigenvalues` (matrix.rs `EigenResult`). -/
structure EigenResult where
  eigenvalues : List ℚ
  explained_variance : List ℚ
  cumulative_variance : List ℚ
deriving Repr, DecidableEq

/-- Dense matrix-vector product `A v` over an `n × n` flat matrix, inner loop
in `j` order as in the Rust code. -/
def matvec (a : List ℚ) (n : ℕ) (v : List ℚ) : List ℚ :=
  (List.range n).map (fun i =>
    (List.range n).foldl (fun s j => s + a.getD (i * n + j) 0 * v.getD j 0) 0)

/-- Euclidean norm of a vector, via the `sqrtQ` model of `f64::sqrt`. -/
def normQ (v : List ℚ) : ℚ := sqrtQ (v.foldl (fun s x => s + x * x) 0)

/-- The random starting vector: the thread-local RNG of the Rust code is
modelled by an explicit stream `draw` of `gen::<f64>()` values; components
are `draw i - 0.5` and the vector is divided by its norm. -/
def initVec (n : ℕ) (draw : ℕ → ℚ) : List ℚ :=
  let v := (List.range n).map (fun i => draw i - 1 / 2)
  let nrm := normQ v
  v.map (· / nrm)

/-- The bounded power-iteration loop: compute `A v`, stop (keeping the current
`v`) when the image's norm drops below `1e-10`, otherwise normalize and
continue; at most `fuel` (= 100 in the caller) iterations. -/
def powerIter (a : List ℚ) (n : ℕ) : ℕ → List ℚ → List ℚ
  | 0, v => v
  | fuel + 1, v =>
    let av := matvec a n v
    let nrm := normQ av
    if nrm < 1 / 10 ^ 10 then v
    else powerIter a n fuel (av.map (· / nrm))

/-- Rayleigh quotient `v' * A * v` (signed), in the Rust accumulation order. -/
def rayleigh (a : List ℚ) (n : ℕ) (v : List ℚ) : ℚ :=
  (v.zip (matvec a n v)).foldl (fun s p => s + p.1 * p.2) 0

/-- Deflation `A := A - lam * v * v'`: the Rust loop subtracts
`eigenvalue * v[i] * v[j]` — with the SIGNED Rayleigh quotient `lam`, not
the absolute value that was pushed to the output — at every index `< n*n`. -/
def deflate (a : List ℚ) (n : ℕ) (lam : ℚ) (v : List ℚ) : List ℚ :=
  a.mapIdx (fun idx x =>
    if idx < n * n then x - lam * v.getD (idx / n) 0 * v.getD (idx % n) 0 else x)

/-- One extraction step of `calculate_eigenvalues`: starting vector from the
draw stream, 100 power iterations, signed Rayleigh quotient `lam`; the
ABSOLUTE value `|lam|` is appended to the output while the working matrix
is deflated by the SIGNED `lam`. -/
def eigStep (n : ℕ) (draws : ℕ → ℕ → ℚ) (st : List ℚ × List ℚ) (t : ℕ) :
    List ℚ × List ℚ :=
  let v := powerIter st.2 n 100 (initVec n (draws t))
  let lam := rayleigh st.2 n v
  (st.1 ++ [|lam|], deflate st.2 n lam v)

/-- Running cumulative sums, as pushed by the Rust `for e in &explained` loop. -/
def cumsum (l : List ℚ) : List ℚ :=
  (l.foldl (fun st e => (st.1 + e, st.2 ++ [st.1 + e])) ((0 : ℚ), ([] : List ℚ))).2

/-- Model of `calculate_eigenvalues` (matrix.rs lines 228-298): extract
`min k n` eigenpairs by power iteration with deflation; `draws t i` is the
`i`-th RNG draw of extraction `t`.  `explained_variance` divides by the
total (ℚ division by zero yields `0` where the float code would yield NaN). -/
def calculate_eigenvalues (matrix : List ℚ) (n k : ℕ) (draws : ℕ → ℕ → ℚ) :
    EigenResult :=
  let st := (List.range (min k n)).foldl (eigStep n draws) (([] : List ℚ), matrix)
  let eigenvalues := st.1
  let total := eigenvalues.foldl (· + ·) 0
  let explained := eigenvalues.map (fun e => e / total * 100)
  { eigenvalues := eigenvalues
    explained_variance := explained
    cumulative_variance := cumsum explained }

/-- One extraction step as the claim words it: identical to `eigStep` except
that the working matrix is deflated by the REPORTED (absolute-value)
eigenvalue `|lam|`, which is what "subtracting eigenvalue·vvᵗ" means after
the claim has defined "the eigenvalue" as the absolute value of the
Rayleigh quotient. -/
def eigStepClaim (n : ℕ) (draws : ℕ → ℕ → ℚ) (st : List ℚ × List ℚ) (t : ℕ) :
    List ℚ × List ℚ :=
  let v := powerIter st.2 n 100 (initVec n (draws t))
  let lam := rayleigh st.2 n v
  (st.1 ++ [|lam|], deflate st.2 n |lam| v)

/-- The eigenvalue list produced by the claim's literal procedure
(absolute-value deflation). -/
def eigenvaluesClaimAbs (matrix : List ℚ) (n k : ℕ) (draws : ℕ → ℕ → ℚ) :
    List ℚ :=
  ((List.range (min k n)).foldl (eigStepClaim n draws) (([] : List ℚ), matrix)).1

/-- The amended claim's procedure, written as a direct recursion over the
number of pairs still to extract: random unit start vector, at most 100
multiply-and-normalize iterations with the `1e-10` early stop, report
`|v' A v|`, deflate by the SIGNED Rayleigh quotient, recurse on the
deflated matrix. -/
def specEigList (n : ℕ) (draws : ℕ → ℕ → ℚ) : ℕ → ℕ → List ℚ → List ℚ
  | _, 0, _ => []
  | t, c + 1, a =>
    let v := powerIter a n 100 (initVec n (draws t))
    let lam := rayleigh a n v
    |lam| :: specEigList n draws (t + 1) c (deflate a n lam v)

end Wasm

/-! ## `rust/src/fortran_ffi.rs` -/

namespace Ffi

/-- The closed error taxonomy of the FFI layer (`ComputeError`). -/
inductive ComputeError where
  | MatrixInversionFailed : ComputeError
  | SolveFailure : ComputeError
  | ConvergenceFailure : ℤ → ComputeError
  | InvalidDimensions : ComputeError
  | AllocationError : ComputeError
  | Unknown : ℤ → ComputeError
deriving Repr, DecidableEq

/-- Result of the `blup` wrapper (`BlupResult`). -/
structure BlupResult where
  beta : List ℚ
  breeding_values : List ℚ
deriving Repr, DecidableEq

/-- Model of the safe `blup` wrapper (fortran_ffi.rs lines 142-194).  The
external `compute_blup` kernel is abstracted as a pure function of the
marshalled arguments returning `(status, beta, u)`, the status code and
the output buffers it fills; all four length checks run before the kernel
is invoked, so on a mismatch the result is the same for every kernel. -/
def blup
    (kernel : List ℚ → List ℚ → List ℚ → List ℚ → ℚ → ℚ → ℕ → ℕ → ℕ →
      ℤ × List ℚ × List ℚ)
    (phenotypes fixed_effects random_effects a_inverse : List ℚ)
    (var_additive var_residual : ℚ) (n p q : ℕ) : Except ComputeError BlupResult :=
  if phenotypes.length ≠ n then .error .InvalidDimensions
  else if fixed_effects.length ≠ n * p then .error .InvalidDimensions
  else if random_effects.length ≠ n * q then .error .InvalidDimensions
  else if a_inverse.length ≠ q * q then .error .InvalidDimensions
  else
    let out := kernel phenotypes fixed_effects random_effects a_inverse
      var_additive var_residual n p q
    if out.1 = 0 then .ok ⟨out.2.1, out.2.2⟩
    else if out.1 = -1 then .error .MatrixInversionFailed
    else .error (.Unknown out.1)

/-- Model of the safe `gblup` wrapper (fortran_ffi.rs lines 207-244): length
checks plus the open-interval heritability check run before the abstracted
`compute_gblup` kernel (returning `(status, gebv)`) is invoked. -/
def gblup (kernel : List ℚ → List ℚ → ℕ → ℕ → ℚ → ℤ × List ℚ)
    (genotypes phenotypes : List ℚ) (heritability : ℚ) (n m : ℕ) :
    Except ComputeError (List ℚ) :=
  if genotypes.length ≠ n * m then .error .InvalidDimensions
  else if phenotypes.length ≠ n then .error .InvalidDimensions
  else if heritability ≤ 0 ∨ 1 ≤ heritability then .error .InvalidDimensions
  else
    let out := kernel genotypes phenotypes n m heritability
    if out.1 = 0 then .ok out.2
    else if out.1 = -1 then .error .MatrixInversionFailed
    else if out.1 = -2 then .error .SolveFailure
    else .error (.Unknown out.1)

/-- GRM computation methods of the FFI layer. -/
inductive GrmMethod where
  | VanRaden1 : GrmMethod
  | VanRaden2 : GrmMethod
deriving Repr, DecidableEq

/-- Model of the safe `compute_grm` wrapper (fortran_ffi.rs lines 265-292);
`kernel1` / `kernel2` abstract the two Fortran GRM kernels as pure
functions of the marshalled genotypes and dimensions. -/
def compute_grm (kernel1 kernel2 : List ℚ → ℕ → ℕ → ℤ × List ℚ)
    (genotypes : List ℚ) (method : GrmMethod) (n m : ℕ) :
    Except ComputeError (List ℚ) :=
  if genotypes.length ≠ n * m then .error .InvalidDimensions
  else
    let out := match method with
      | .VanRaden1 => kernel1 genotypes n m
      | .VanRaden2 => kernel2 genotypes n m
    if out.1 = 0 then .ok out.2 else .error (.Unknown out.1)

/-- Model of the safe `compute_dominance` wrapper (fortran_ffi.rs 295-310). -/
def compute_dominance (kernel : List ℚ → ℕ → ℕ → ℤ × List ℚ)
    (genotypes : List ℚ) (n m : ℕ) : Except ComputeError (List ℚ) :=
  if genotypes.length ≠ n * m then .error .InvalidDimensions
  else
    let out := kernel genotypes n m
    if out.1 = 0 then .ok out.2 else .error (.Unknown out.1)

/-- Model of the safe `compute_epistatic` wrapper (fortran_ffi.rs 313-327). -/
def compute_epistatic (kernel : List ℚ → ℕ → ℤ × List ℚ) (grm : List ℚ)
    (n : ℕ) : Except ComputeError (List ℚ) :=
  if grm.length ≠ n * n then .error .InvalidDimensions
  else
    let out := kernel grm n
    if out.1 = 0 then .ok out.2 else .error (.Unknown out.1)

/-- Model of `solve_mme_pcg` (fortran_ffi.rs lines 340-379).  `dim` is taken
from `rhs.len()`; the abstracted `solve_mme` kernel receives the
coefficient matrix, the right-hand side, the solution buffer seeded with
`initial_guess`, the tolerance and the iteration budget, and returns
`(iterations, solution)`: its status code and the buffer it leaves
behind.  A negative status is split into the reserved sentinel `-1`
(`SolveFailure`) and every other negative value `-k`
(`ConvergenceFailure` with `iterations = k`). -/
def solve_mme_pcg (kernel : List ℚ → List ℚ → List ℚ → ℚ → ℕ → ℤ × List ℚ)
    (coefficient_matrix rhs initial_guess : List ℚ) (tolerance : ℚ)
    (max_iterations : ℕ) : Except ComputeError (List ℚ × ℕ) :=
  let dim := rhs.length
  if coefficient_matrix.length ≠ dim * dim then .error .InvalidDimensions
  else if initial_guess.length ≠ dim then .error .InvalidDimensions
  else
    let out := kernel coefficient_matrix rhs initial_guess tolerance max_iterations
    if out.1 < 0 then
      if out.1 = -1 then .error .SolveFailure
      else .error (.ConvergenceFailure (-out.1))
    else .ok (out.2, out.1.toNat)

end Ffi

/-! ## Shared helper lemmas -/

theorem getD_range_map {α : Type} (f : ℕ → α) (d : α) {t idx : ℕ} (h : idx < t) :
    ((List.range t).map f).getD idx d = f idx := by
  rw [List.getD_eq_getElem?_getD, List.getElem?_map, List.getElem?_range h]
  rfl

theorem getD_range_map_ge {α : Type} (f : ℕ → α) (d : α) {t idx : ℕ}
    (h : t ≤ idx) : ((List.range t).map f).getD idx d = d := by
  apply List.getD_eq_default
  simpa using h

theorem getD_replicate {α : Type} (v d : α) (t idx : ℕ) (h : v = d) :
    (List.replicate t v).getD idx d = d := by
  rcases Nat.lt_or_ge idx t with hlt | hge
  · rw [List.getD_eq_getElem?_getD, List.getElem?_replicate, if_pos hlt]
    simpa using h
  · exact List.getD_eq_default _ _ (by simpa using hge)

theorem rowcol_div {i k n : ℕ} (hk : k < n) : (i * n + k) / n = i := by
  rw [Nat.add_comm, Nat.mul_comm,
    Nat.add_mul_div_left _ _ (Nat.lt_of_le_of_lt (Nat.zero_le k) hk),
    Nat.div_eq_of_lt hk, Nat.zero_add]

theorem rowcol_mod {i k n : ℕ} (hk : k < n) : (i * n + k) % n = k := by
  rw [Nat.add_comm, Nat.mul_comm, Nat.add_mul_mod_self_left, Nat.mod_eq_of_lt hk]

theorem rowcol_lt {i k n : ℕ} (hi : i < n) (hk : k < n) : i * n + k < n * n :=
  calc i * n + k < i * n + n := by omega
    _ = (i + 1) * n := by ring
    _ ≤ n * n := Nat.mul_le_mul_right n hi

theorem foldl_congr_mem {α β : Type} (l : List α) (g1 g2 : β → α → β) (a : β)
    (h : ∀ b, ∀ x ∈ l, g1 b x = g2 b x) : l.foldl g1 a = l.foldl g2 a := by
  induction l generalizing a with
  | nil => rfl
  | cons x xs ih =>
    rw [List.foldl_cons, List.foldl_cons, h a x (List.mem_cons_self x xs)]
    exact ih _ (fun b y hy => h b y (List.mem_cons_of_mem x hy))

theorem foldl_fixed {α β : Type} (l : List α) (g : β → α → β) (a : β)
    (h : ∀ b, ∀ x ∈ l, g b x = b) : l.foldl g a = a := by
  induction l generalizing a with
  | nil => rfl
  | cons x xs ih =>
    rw [List.foldl_cons, h a x (List.mem_cons_self x xs)]
    exact ih _ (fun b y hy => h b y (List.mem_cons_of_mem x hy))

theorem range_map_eq_replicate {α : Type} (n : ℕ) (f : ℕ → α) (v : α)
    (h : ∀ i < n, f i = v) : (List.range n).map f = List.replicate n v := by
  apply List.eq_replicate_iff.2
  refine ⟨by simp, ?_⟩
  intro b hb
  rcases List.mem_map.1 hb with ⟨i, hi, rfl⟩
  exact h i (List.mem_range.1 hi)

theorem foldl_sub_range (n i : ℕ) (f : ℕ → ℚ) (a : ℚ) :
    (List.range n).foldl (fun s j => if j ≠ i then s - f j else s) a =
      a - (((List.range n).filter (fun j => j ≠ i)).map f).sum := by
  induction n generalizing a with
  | zero => simp
  | succ n ih =>
    rw [List.range_succ, List.foldl_append, ih, List.filter_append,
      List.map_append, List.sum_append]
    simp only [List.foldl_cons, List.foldl_nil, List.filter_cons,
      List.filter_nil, List.map_nil, List.sum_nil]
    by_cases hn : n ≠ i
    · simp [hn]
      ring
    · simp [hn]

/-! ## Claim C1 — the worked example -/

/-- C1 counterexample: for the row-major buffer `[0,2,1,1]` with 2 individuals
(rows `[0,2]` and `[1,1]`) and 2 markers, the per-marker allele
frequencies computed by the GRM construction are `[1/4, 3/4]` — marker 0
sees calls `{0,1}` and marker 1 sees `{2,1}` — so the claim's value `0.5`
for the first frequency is off by `1/4 > 1e-5`, and the scale is `3/4`,
not `1.0`. -/
theorem C1_counterexample :
    GenomicsKernel.freqs [0, 2, 1, 1] 2 2 = [1/4, 3/4] ∧
    ¬ |(GenomicsKernel.freqs [0, 2, 1, 1] 2 2).getD 0 0 - 1/2| ≤ 1/10^5 ∧
    GenomicsKernel.scale [0, 2, 1, 1] 2 2 ≠ 1 := by
  refine ⟨by decide, by decide, by decide⟩

/-- C1 (amended): for genotypes `[0,2, 1,1]` with individuals=2, markers=2,
both GRM implementations compute frequencies `[0.25, 0.75]`, scale
`0.75`, centered matrix `Z = [[-0.5, 0.5], [0.5, -0.5]]`, and return
`G = [[2/3, -2/3], [-2/3, 2/3]]` exactly — each entry within `1e-4` (not
`1e-5`) of the spec's four-decimal value `±0.6667`. -/
theorem C1_amended_worked_example :
    GenomicsKernel.freqs [0, 2, 1, 1] 2 2 = [1/4, 3/4] ∧
    GenomicsKernel.scale [0, 2, 1, 1] 2 2 = 3/4 ∧
    GenomicsKernel.zList [0, 2, 1, 1] 2 2 = [-(1/2), 1/2, 1/2, -(1/2)] ∧
    GenomicsKernel.calculate_g_matrix [0, 2, 1, 1] 2 2 =
      [2/3, -(2/3), -(2/3), 2/3] ∧
    (Wasm.calculate_grm [0, 2, 1, 1] 2 2).map Wasm.GRMResult.matrix =
      some [2/3, -(2/3), -(2/3), 2/3] ∧
    |(GenomicsKernel.calculate_g_matrix [0, 2, 1, 1] 2 2).getD 0 0 -
      6667/10000| ≤ 1/10^4 := by
  refine ⟨by decide, by decide, by decide, by decide, by decide, by decide⟩

/-! ## Claim C2 — length / dimension validation -/

/-- C2 counterexample: `calculate_grm` performs no buffer-length validation.
With a 5-element buffer declared as 2×2 it silently computes a full
4-entry relationship matrix from the first 4 elements (not an empty
result), and with a 1-element buffer declared as 2×2 it indexes out of
bounds (a panic, `none` in the model) instead of returning empty. -/
theorem C2_counterexample :
    (Wasm.calculate_grm [0, 2, 1, 1, 7] 2 2).map
      (fun r => r.matrix.length) = some 4 ∧
    ([0, 2, 1, 1, 7] : List ℤ).length ≠ 2 * 2 ∧
    Wasm.calculate_grm [0] 2 2 = none := by
  refine ⟨by decide, by decide, by decide⟩

/-- C2 (amended): the validating behaviour holds for
`genomics_kernel::calculate_g_matrix` only — whenever either dimension is
`0` or the buffer length differs from `n_markers * n_individuals`, it
returns the empty vector (never a panic, never a truncated result);
`matrix.rs::calculate_grm` performs no such validation. -/
theorem C2_amended_gblup_validates (markers : List ℕ) (n_markers n_individuals : ℕ)
    (h : n_markers = 0 ∨ n_individuals = 0 ∨
      markers.length ≠ n_markers * n_individuals) :
    GenomicsKernel.calculate_g_matrix markers n_markers n_individuals = [] := by
  rw [GenomicsKernel.calculate_g_matrix]
  split_ifs with h1 h2 h3
  · rfl
  · rfl
  · exfalso
    rcases h with h | h | h
    · exact h1 (Or.inl h)
    · exact h1 (Or.inr h)
    · exact h2 h
  · exfalso
    rcases h with h | h | h
    · exact h1 (Or.inl h)
    · exact h1 (Or.inr h)
    · exact h2 h

/-- C2 witness: a concrete undersized buffer is rejected with the empty
vector. -/
theorem C2_witness : GenomicsKernel.calculate_g_matrix [0] 2 2 = [] :=
  C2_amended_gblup_validates [0] 2 2 (Or.inr (Or.inr (by decide)))

/-! ## Claim C3 — validity of genotype calls -/

/-- C3 counterexample: `calculate_grm` treats the call `3` (outside
`{0,1,2}`) as VALID — its validity test is `geno >= 0`.  For one marker
over two individuals with calls `[3, 1]` it computes frequency
`(3+1)/(2·2) = 1`, whereas omitting the `3` from an otherwise-identical
dataset (single call `[1]`) gives `1/(2·1) = 1/2`: the sentinel is not
excluded and the statistics differ. -/
theorem C3_counterexample :
    Wasm.grmFreqs [3, 1] 2 1 = [1] ∧
    Wasm.grmFreqs [1] 1 1 = [1/2] ∧
    ((1 : ℚ) ≠ 1/2) := by
  refine ⟨by decide, by decide, by decide⟩

/-- C3 (amended): in `calculate_g_matrix` (u8 calls) a call is valid iff it
is `≤ 2`, i.e. lies in `{0,1,2}`, and replacing a call by any sentinel
`> 2` yields exactly the per-marker sum, count and frequency of the
dataset with that call omitted; in `calculate_grm` (i32 calls) a call is
valid iff it is `≥ 0` — only NEGATIVE sentinels are excluded (with the
same omission equivalence), while values `> 2` are included as-is. -/
theorem C3_amended_missing_excluded :
    (∀ (pre post : List ℕ) (v : ℕ), GenomicsKernel.MAX_GENOTYPE < v →
      GenomicsKernel.colSum (pre ++ v :: post) =
        GenomicsKernel.colSum (pre ++ post) ∧
      GenomicsKernel.colCount (pre ++ v :: post) =
        GenomicsKernel.colCount (pre ++ post) ∧
      GenomicsKernel.colFreq (pre ++ v :: post) =
        GenomicsKernel.colFreq (pre ++ post)) ∧
    (∀ (pre post : List ℤ) (v : ℤ), v < 0 →
      Wasm.colSumZ (pre ++ v :: post) = Wasm.colSumZ (pre ++ post) ∧
      Wasm.colCountZ (pre ++ v :: post) = Wasm.colCountZ (pre ++ post) ∧
      Wasm.colFreqZ (pre ++ v :: post) = Wasm.colFreqZ (pre ++ post)) := by
  constructor
  · intro pre post v hv
    have hsum : GenomicsKernel.colSum (pre ++ v :: post) =
        GenomicsKernel.colSum (pre ++ post) := by
      rw [GenomicsKernel.colSum, GenomicsKernel.colSum, List.foldl_append,
        List.foldl_append, List.foldl_cons, if_neg (by omega)]
    have hcount : GenomicsKernel.colCount (pre ++ v :: post) =
        GenomicsKernel.colCount (pre ++ post) := by
      rw [GenomicsKernel.colCount, GenomicsKernel.colCount, List.foldl_append,
        List.foldl_append, List.foldl_cons, if_neg (by omega)]
    exact ⟨hsum, hcount, by rw [GenomicsKernel.colFreq, GenomicsKernel.colFreq,
      hsum, hcount]⟩
  · intro pre post v hv
    have hsum : Wasm.colSumZ (pre ++ v :: post) = Wasm.colSumZ (pre ++ post) := by
      rw [Wasm.colSumZ, Wasm.colSumZ, List.foldl_append, List.foldl_append,
        List.foldl_cons, if_neg (by omega)]
    have hcount : Wasm.colCountZ (pre ++ v :: post) =
        Wasm.colCountZ (pre ++ post) := by
      rw [Wasm.colCountZ, Wasm.colCountZ, List.foldl_append, List.foldl_append,
        List.foldl_cons, if_neg (by omega)]
    exact ⟨hsum, hcount, by rw [Wasm.colFreqZ, Wasm.colFreqZ, hsum, hcount]⟩

/-- C3 witness: inserting the sentinel `3` into a `u8` column, or `-1` into
an `i32` column, leaves the computed frequency unchanged. -/
theorem C3_witness :
    GenomicsKernel.colFreq ([0] ++ 3 :: [1]) = GenomicsKernel.colFreq ([0] ++ [1]) ∧
    Wasm.colFreqZ ([0] ++ (-1) :: [1]) = Wasm.colFreqZ ([0] ++ [1]) :=
  ⟨(C3_amended_missing_excluded.1 [0] [1] 3 (by decide)).2.2,
   (C3_amended_missing_excluded.2 [0] [1] (-1) (by decide)).2.2⟩

/-! ## Claim C7 — PCG status interpretation -/

/-- C7: whatever status the external PCG kernel returns, `solve_mme_pcg`
distinguishes exactly three outcomes: a non-negative status yields success
with the kernel's solution buffer and the status as iteration count, the
reserved sentinel `-1` yields `SolveFailure`, and every other negative
status `-k` yields `ConvergenceFailure` with `iterations = k`. -/
theorem C7_pcg_status (kernel : List ℚ → List ℚ → List ℚ → ℚ → ℕ → ℤ × List ℚ)
    (c rhs guess : List ℚ) (tol : ℚ) (mi : ℕ)
    (hc : c.length = rhs.length * rhs.length) (hg : guess.length = rhs.length) :
    (0 ≤ (kernel c rhs guess tol mi).1 →
      Ffi.solve_mme_pcg kernel c rhs guess tol mi =
        .ok ((kernel c rhs guess tol mi).2, (kernel c rhs guess tol mi).1.toNat)) ∧
    ((kernel c rhs guess tol mi).1 = -1 →
      Ffi.solve_mme_pcg kernel c rhs guess tol mi = .error .SolveFailure) ∧
    ((kernel c rhs guess tol mi).1 < -1 →
      Ffi.solve_mme_pcg kernel c rhs guess tol mi =
        .error (.ConvergenceFailure (-(kernel c rhs guess tol mi).1))) := by
  simp only [Ffi.solve_mme_pcg]
  rw [if_neg (by simp [hc]), if_neg (by simp [hg])]
  refine ⟨?_, ?_, ?_⟩
  · intro h0
    rw [if_neg (by omega)]
  · intro h1
    rw [if_pos (by omega), if_pos h1]
  · intro h2
    rw [if_pos (by omega), if_neg (by omega)]

/-- C7 witness: the three outcomes at concrete kernels on a 1×1 system. -/
theorem C7_witness :
    Ffi.solve_mme_pcg (fun _ _ _ _ _ => (5, [9])) [1] [2] [0] 1 10 =
      .ok ([9], 5) ∧
    Ffi.solve_mme_pcg (fun _ _ _ _ _ => (-1, [9])) [1] [2] [0] 1 10 =
      .error .SolveFailure ∧
    Ffi.solve_mme_pcg (fun _ _ _ _ _ => (-7, [9])) [1] [2] [0] 1 10 =
      .error (.ConvergenceFailure 7) :=
  ⟨(C7_pcg_status (fun _ _ _ _ _ => (5, [9])) [1] [2] [0] 1 10 rfl rfl).1
      (by decide),
   (C7_pcg_status (fun _ _ _ _ _ => (-1, [9])) [1] [2] [0] 1 10 rfl rfl).2.1 rfl,
   (C7_pcg_status (fun _ _ _ _ _ => (-7, [9])) [1] [2] [0] 1 10 rfl rfl).2.2
      (by decide)⟩

/-! ## Claim C8 — boundary dimension validation -/

/-- C8: every External Kernel Boundary wrapper rejects any input whose buffer
lengths do not match the declared dimensions (or, for `gblup`, whose
heritability lies outside the open interval `(0,1)`) with
`InvalidDimensions`; since the result is the same for EVERY abstracted
kernel, the external call never influences the outcome — it never
happens. -/
theorem C8_dimension_validation :
    (∀ (kernel : List ℚ → List ℚ → List ℚ → List ℚ → ℚ → ℚ → ℕ → ℕ → ℕ →
        ℤ × List ℚ × List ℚ) (phen fx rz ai : List ℚ) (va vr : ℚ) (n p q : ℕ),
      (phen.length ≠ n ∨ fx.length ≠ n * p ∨ rz.length ≠ n * q ∨
        ai.length ≠ q * q) →
      Ffi.blup kernel phen fx rz ai va vr n p q = .error .InvalidDimensions) ∧
    (∀ (kernel : List ℚ → List ℚ → ℕ → ℕ → ℚ → ℤ × List ℚ)
        (geno phen : List ℚ) (h : ℚ) (n m : ℕ),
      (geno.length ≠ n * m ∨ phen.length ≠ n ∨ h ≤ 0 ∨ 1 ≤ h) →
      Ffi.gblup kernel geno phen h n m = .error .InvalidDimensions) ∧
    (∀ (k1 k2 : List ℚ → ℕ → ℕ → ℤ × List ℚ) (geno : List ℚ)
        (method : Ffi.GrmMethod) (n m : ℕ),
      geno.length ≠ n * m →
      Ffi.compute_grm k1 k2 geno method n m = .error .InvalidDimensions) ∧
    (∀ (kernel : List ℚ → ℕ → ℕ → ℤ × List ℚ) (geno : List ℚ) (n m : ℕ),
      geno.length ≠ n * m →
      Ffi.compute_dominance kernel geno n m = .error .InvalidDimensions) ∧
    (∀ (kernel : List ℚ → ℕ → ℤ × List ℚ) (grm : List ℚ) (n : ℕ),
      grm.length ≠ n * n →
      Ffi.compute_epistatic kernel grm n = .error .InvalidDimensions) ∧
    (∀ (kernel : List ℚ → List ℚ → List ℚ → ℚ → ℕ → ℤ × List ℚ)
        (c rhs guess : List ℚ) (tol : ℚ) (mi : ℕ),
      (c.length ≠ rhs.length * rhs.length ∨ guess.length ≠ rhs.length) →
      Ffi.solve_mme_pcg kernel c rhs guess tol mi = .error .InvalidDimensions) := by
  refine ⟨?_, ?_, ?_, ?_, ?_, ?_⟩
  · intro kernel phen fx rz ai va vr n p q h
    simp only [Ffi.blup]
    split_ifs with h1 h2 h3 h4 h5 h6 <;>
      first
        | rfl
        | (exfalso
           rcases h with h | h | h | h
           exacts [h1 h, h2 h, h3 h, h4 h])
  · intro kernel geno phen h n m hd
    simp only [Ffi.gblup]
    split_ifs with h1 h2 h3 h4 h5 h6 <;>
      first
        | rfl
        | (exfalso
           rcases hd with h | h | h | h
           exacts [h1 h, h2 h, h3 (Or.inl h), h3 (Or.inr h)])
  · intro k1 k2 geno method n m h
    simp only [Ffi.compute_grm]
    rw [if_pos h]
  · intro kernel geno n m h
    simp only [Ffi.compute_dominance]
    rw [if_pos h]
  · intro kernel grm n h
    simp only [Ffi.compute_epistatic]
    rw [if_pos h]
  · intro kernel c rhs guess tol mi h
    simp only [Ffi.solve_mme_pcg]
    split_ifs with h1 h2 h3 h4 <;>
      first
        | rfl
        | (exfalso
           rcases h with h | h
           exacts [h1 h, h2 h])

/-- C8 witness: one concrete rejected input per wrapper (for `gblup` the
heritability `2` outside `(0,1)` with otherwise-consistent buffers). -/
theorem C8_witness :
    Ffi.blup (fun _ _ _ _ _ _ _ _ _ => (0, [], [])) [1] [] [] [] 1 1 2 1 1 =
      .error .InvalidDimensions ∧
    Ffi.gblup (fun _ _ _ _ _ => (0, [])) [] [] 2 0 0 =
      .error .InvalidDimensions ∧
    Ffi.compute_grm (fun _ _ _ => (0, [])) (fun _ _ _ => (0, [])) [1]
      Ffi.GrmMethod.VanRaden1 1 2 = .error .InvalidDimensions ∧
    Ffi.compute_dominance (fun _ _ _ => (0, [])) [1] 1 2 =
      .error .InvalidDimensions ∧
    Ffi.compute_epistatic (fun _ _ => (0, [])) [1] 2 =
      .error .InvalidDimensions ∧
    Ffi.solve_mme_pcg (fun _ _ _ _ _ => (0, [])) [1] [2] [] 1 10 =
      .error .InvalidDimensions :=
  ⟨C8_dimension_validation.1 _ [1] [] [] [] 1 1 2 1 1 (Or.inl (by decide)),
   C8_dimension_validation.2.1 _ [] [] 2 0 0
     (Or.inr (Or.inr (Or.inr (by norm_num)))),
   C8_dimension_validation.2.2.1 _ _ [1] Ffi.GrmMethod.VanRaden1 1 2 (by decide),
   C8_dimension_validation.2.2.2.1 _ [1] 1 2 (by decide),
   C8_dimension_validation.2.2.2.2.1 _ [1] 2 (by decide),
   C8_dimension_validation.2.2.2.2.2 _ [1] [2] [] 1 10 (Or.inr (by decide))⟩

/-! ## Claim C10 — eigenvalue count -/

/-- Length of the accumulated eigenvalue list after folding extraction steps:
one eigenvalue is appended per step. -/
theorem eigFold_fst_length (n : ℕ) (draws : ℕ → ℕ → ℚ) (l : List ℕ)
    (st : List ℚ × List ℚ) :
    ((l.foldl (Wasm.eigStep n draws) st).1).length = st.1.length + l.length := by
  induction l generalizing st with
  | nil => simp
  | cons t ts ih =>
    rw [List.foldl_cons, ih]
    simp only [Wasm.eigStep, List.length_append, List.length_cons,
      List.length_nil, List.length_cons]
    omega

/-- Length of the running cumulative-sum list. -/
theorem cumsum_length (l : List ℚ) : (Wasm.cumsum l).length = l.length := by
  have key : ∀ (st : ℚ × List ℚ),
      ((l.foldl (fun st e => (st.1 + e, st.2 ++ [st.1 + e])) st).2).length =
        st.2.length + l.length := by
    induction l with
    | nil => intro st; simp
    | cons x xs ih =>
      intro st
      rw [List.foldl_cons, ih]
      simp only [List.length_append, List.length_cons, List.length_nil]
      omega
  simpa [Wasm.cumsum] using key (0, [])

/-- C10: `calculate_eigenvalues` returns exactly `min k n` eigenvalues, and
explained-variance and cumulative-variance lists of the same length —
requesting `k > n` eigenpairs is not an error and produces no padding. -/
theorem C10_eigen_lengths (matrix : List ℚ) (n k : ℕ) (draws : ℕ → ℕ → ℚ) :
    (Wasm.calculate_eigenvalues matrix n k draws).eigenvalues.length = min k n ∧
    (Wasm.calculate_eigenvalues matrix n k draws).explained_variance.length =
      min k n ∧
    (Wasm.calculate_eigenvalues matrix n k draws).cumulative_variance.length =
      min k n := by
  have hlen : ((List.range (min k n)).foldl (Wasm.eigStep n draws)
      (([] : List ℚ), matrix)).1.length = min k n := by
    rw [eigFold_fst_length]
    simp
  refine ⟨?_, ?_, ?_⟩
  · simpa [Wasm.calculate_eigenvalues] using hlen
  · simpa [Wasm.calculate_eigenvalues] using hlen
  · simp only [Wasm.calculate_eigenvalues]
    rw [cumsum_length]
    simpa using hlen

/-! ## Claim C5 — exact symmetry of the relationship matrix -/

/-- The marker-axis dot product is symmetric in its two row indices: the two
accumulations run in the same marker order and each term commutes. -/
theorem gDot_symm (z : List ℚ) (m i k : ℕ) :
    GenomicsKernel.gDot z m i k = GenomicsKernel.gDot z m k i := by
  apply foldl_congr_mem
  intro s t _
  ring

/-- C5: both relationship-matrix builders produce exactly symmetric output:
`calculate_g_matrix` computes every entry independently with the same
fixed marker accumulation order (so `G[i][k]` and `G[k][i]` are the same
exact value), and `calculate_grm` computes the upper triangle and
mirrors. -/
theorem C5_symmetry :
    (∀ (markers : List ℕ) (m n i k : ℕ), i < n → k < n →
      (GenomicsKernel.calculate_g_matrix markers m n).getD (i * n + k) 0 =
        (GenomicsKernel.calculate_g_matrix markers m n).getD (k * n + i) 0) ∧
    (∀ (genotypes : List ℤ) (n m i k : ℕ), i < n → k < n →
      (Wasm.calculate_grm genotypes n m).map
          (fun r => r.matrix.getD (i * n + k) 0) =
        (Wasm.calculate_grm genotypes n m).map
          (fun r => r.matrix.getD (k * n + i) 0)) := by
  constructor
  · intro markers m n i k hi hk
    rw [GenomicsKernel.calculate_g_matrix]
    split_ifs with h1 h2 h3
    · rfl
    · rfl
    · rw [getD_replicate _ _ _ _ rfl, getD_replicate _ _ _ _ rfl]
    · rw [getD_range_map _ _ (rowcol_lt hi hk),
        getD_range_map _ _ (rowcol_lt hk hi),
        rowcol_div hk, rowcol_mod hk, rowcol_div hi, rowcol_mod hi, gDot_symm]
  · intro genotypes n m i k hi hk
    rw [Wasm.calculate_grm]
    split_ifs with h1
    · rfl
    · show some (((List.range (n * n)).map (fun idx =>
          Wasm.grmDot (Wasm.grmZ genotypes n m) m
            (min (idx / n) (idx % n)) (max (idx / n) (idx % n)) /
            Wasm.grmScale genotypes n m)).getD (i * n + k) 0) =
        some (((List.range (n * n)).map (fun idx =>
          Wasm.grmDot (Wasm.grmZ genotypes n m) m
            (min (idx / n) (idx % n)) (max (idx / n) (idx % n)) /
            Wasm.grmScale genotypes n m)).getD (k * n + i) 0)
      congr 1
      rw [getD_range_map _ _ (rowcol_lt hi hk),
        getD_range_map _ _ (rowcol_lt hk hi),
        rowcol_div hk, rowcol_mod hk, rowcol_div hi, rowcol_mod hi,
        min_comm i k, max_comm i k]

/-- C5 witness: symmetry of the off-diagonal pair of the 2×2 worked
example, for both builders. -/
theorem C5_witness :
    (GenomicsKernel.calculate_g_matrix [0, 2, 1, 1] 2 2).getD (0 * 2 + 1) 0 =
      (GenomicsKernel.calculate_g_matrix [0, 2, 1, 1] 2 2).getD (1 * 2 + 0) 0 ∧
    (Wasm.calculate_grm [0, 2, 1, 1] 2 2).map
        (fun r => r.matrix.getD (0 * 2 + 1) 0) =
      (Wasm.calculate_grm [0, 2, 1, 1] 2 2).map
        (fun r => r.matrix.getD (1 * 2 + 0) 0) :=
  ⟨C5_symmetry.1 [0, 2, 1, 1] 2 2 0 1 (by decide) (by decide),
   C5_symmetry.2 [0, 2, 1, 1] 2 2 0 1 (by decide) (by decide)⟩

/-! ## Claim C6 — the in-process Gauss-Seidel solver -/

/-- One code sweep equals one amended claim-worded sweep whenever the two
coefficient functions agree on indices below `n`: the code's running
subtraction is the sum over `j ≠ i`, and the code's update-on
`abs > 1e-10` is exactly the claim's skip-on `abs ≤ 1e-10`. -/
theorem gsSweep_eq_specLe (C1 C2 : ℕ → ℕ → ℚ) (r : ℕ → ℚ) (n : ℕ)
    (hC : ∀ i < n, ∀ j < n, C1 i j = C2 i j) (u : List ℚ) :
    Wasm.gsSweep C1 r n u = Wasm.gsSweepSpecLe C2 r n u := by
  rw [Wasm.gsSweep, Wasm.gsSweepSpecLe]
  apply foldl_congr_mem
  intro b i hi
  have hin : i < n := List.mem_range.1 hi
  have hCii : C1 i i = C2 i i := hC i hin i hin
  have hsub := foldl_sub_range n i (fun j => C1 i j * b.getD j 0) (r i)
  rw [hsub]
  have hsum : (((List.range n).filter (fun j => j ≠ i)).map
      (fun j => C1 i j * b.getD j 0)).sum =
      (((List.range n).filter (fun j => j ≠ i)).map
      (fun j => C2 i j * b.getD j 0)).sum := by
    congr 1
    apply List.map_congr_left
    intro j hj
    have hjn : j < n := List.mem_range.1 (List.mem_of_mem_filter hj)
    rw [hC i hin j hjn]
  rcases le_or_lt |C2 i i| Wasm.gsEps with hle | hlt
  · rw [if_neg (not_lt.2 (hCii ▸ hle)), if_pos hle]
  · rw [if_pos (hCii ▸ hlt), if_neg (not_le.2 hlt), hCii, hsum]

/-- Iterated version of `gsSweep_eq_specLe`. -/
theorem gsIter_eq_specLe (C1 C2 : ℕ → ℕ → ℚ) (r : ℕ → ℚ) (n : ℕ)
    (hC : ∀ i < n, ∀ j < n, C1 i j = C2 i j) :
    ∀ (fuel : ℕ) (u : List ℚ),
      Wasm.gsIter C1 r n fuel u = Wasm.gsIterSpecLe C2 r n fuel u := by
  intro fuel
  induction fuel with
  | zero => intro u; rfl
  | succ fuel ih =>
    intro u
    show Wasm.gsIter C1 r n fuel (Wasm.gsSweep C1 r n u) =
      Wasm.gsIterSpecLe C2 r n fuel (Wasm.gsSweepSpecLe C2 r n u)
    rw [gsSweep_eq_specLe C1 C2 r n hC u]
    exact ih _

/-- C6 counterexample: with phenotypes `[0, 2]`, `G = [[1e-10 - 1, 0], [0, 0]]`
and heritability `1/2` (so `λ = 1` and `C[0][0]` is EXACTLY `1e-10`), the
code leaves `u[0] = 0` — it skips because its test `abs > 1e-10` fails at
equality — whereas the claim's solver (skip only when `abs < 1e-10`)
updates `u[0]` to `-10^10`.  The skip condition is therefore
`|C[i][i]| ≤ 1e-10`, not `< 1e-10`. -/
theorem C6_counterexample :
    (Wasm.estimate_gblup [some 0, some 2] [1/10^10 - 1, 0, 0, 0] 2 (1/2)).gebv =
      [0, 1] ∧
    Wasm.gaussSeidelSpecLt
      (fun i j => ([1/10^10 - 1, 0, 0, 0] : List ℚ).getD (i * 2 + j) 0 +
        if i = j then (1 - 1/2) / (1/2) else 0)
      (fun i => ([-1, 1] : List ℚ).getD i 0) 2 100 = [-(10^10), 1] ∧
    ([0, 1] : List ℚ) ≠ [-(10^10), 1] := by
  refine ⟨by decide, ?_, by decide⟩
  have h1 : Wasm.gsSweepSpecLt
      (fun i j => ([1/10^10 - 1, 0, 0, 0] : List ℚ).getD (i * 2 + j) 0 +
        if i = j then (1 - 1/2) / (1/2) else 0)
      (fun i => ([-1, 1] : List ℚ).getD i 0) 2 (List.replicate 2 0) =
      [-(10^10), 1] := by decide
  have h2 : Wasm.gsSweepSpecLt
      (fun i j => ([1/10^10 - 1, 0, 0, 0] : List ℚ).getD (i * 2 + j) 0 +
        if i = j then (1 - 1/2) / (1/2) else 0)
      (fun i => ([-1, 1] : List ℚ).getD i 0) 2 [-(10^10), 1] =
      [-(10^10), 1] := by decide
  have hfix : ∀ fuel, Wasm.gsIterSpecLt
      (fun i j => ([1/10^10 - 1, 0, 0, 0] : List ℚ).getD (i * 2 + j) 0 +
        if i = j then (1 - 1/2) / (1/2) else 0)
      (fun i => ([-1, 1] : List ℚ).getD i 0) 2 fuel [-(10^10), 1] =
      [-(10^10), 1] := by
    intro fuel
    induction fuel with
    | zero => rfl
    | succ fuel ih =>
      show Wasm.gsIterSpecLt _ _ 2 fuel (Wasm.gsSweepSpecLt _ _ 2 _) = _
      rw [h2]
      exact ih
  show Wasm.gsIterSpecLt _ _ 2 100 (List.replicate 2 0) = _
  show Wasm.gsIterSpecLt _ _ 2 99 (Wasm.gsSweepSpecLt _ _ 2 (List.replicate 2 0)) = _
  rw [h1]
  exact hfix 99

/-- C6 (amended): `estimate_gblup` is exactly 100 fixed index-order
Gauss-Seidel sweeps on `(G + λI) u = r` from `u = 0`, with
`λ = (1 - h²)/h²` and `r = y - mean`, skipping the update of `u[i]`
exactly when `|C[i][i]| ≤ 1e-10` (the code updates only on
`abs > 1e-10`). -/
theorem C6_amended_gauss_seidel (phenotypes : List (Option ℚ)) (grm : List ℚ)
    (n : ℕ) (h : ℚ) :
    (Wasm.estimate_gblup phenotypes grm n h).gebv =
      Wasm.gaussSeidelSpecLe
        (fun i j => grm.getD (i * n + j) 0 +
          if i = j then Wasm.gblupLambda h else 0)
        (fun i => (Wasm.gblupRhs phenotypes).getD i 0) n 100 := by
  show Wasm.gsIter
      (fun i j => (Wasm.gblupCoef grm n (Wasm.gblupLambda h)).getD (i * n + j) 0)
      (fun i => (Wasm.gblupRhs phenotypes).getD i 0) n 100
      (List.replicate n 0) = _
  rw [Wasm.gaussSeidelSpecLe]
  apply gsIter_eq_specLe
  intro i hi j hj
  rw [Wasm.gblupCoef, getD_range_map _ _ (rowcol_lt hi hj),
    rowcol_div hj, rowcol_mod hj]

/-! ## Claim C4 — fixed or missing markers give the zero matrix -/

/-- C4 counterexample: for genotypes `[1, 3]` over one marker (two
individuals), the scaling denominator of `calculate_grm` is EXACTLY zero
(the frequency is `(1+3)/(2*2) = 1`, outside `(0,1)`), yet the built
matrix is `[[1,-1],[-1,1]]`, not the 2×2 zero matrix: `calculate_grm`
replaces a zero scale by `1.0` and keeps the nonzero deviations
`1 - 2·1 = -1` and `3 - 2·1 = 1`.  (The claim's premise gloss is also
wrong in the other direction: a marker fixed at `1` has `p = 0.5` and
contributes `0.5` to the scale.) -/
theorem C4_counterexample :
    Wasm.grmScaleRaw [1, 3] 2 1 = 0 ∧
    (Wasm.calculate_grm [1, 3] 2 1).map Wasm.GRMResult.matrix =
      some [1, -1, -1, 1] ∧
    some ([1, -1, -1, 1] : List ℚ) ≠ some (List.replicate 4 (0 : ℚ)) ∧
    GenomicsKernel.scale [1, 1] 1 2 = 1/2 := by
  refine ⟨by decide, by decide, by decide, by decide⟩

/-- Sum of a constant valid (`≤ 2`) `u8` column. -/
theorem colSum_replicate (n v : ℕ) (hv : v ≤ GenomicsKernel.MAX_GENOTYPE) :
    GenomicsKernel.colSum (List.replicate n v) = (n : ℚ) * (v : ℚ) := by
  have key : ∀ (a : ℚ), (List.replicate n v).foldl
      (fun (s : ℚ) (w : ℕ) =>
        if w ≤ GenomicsKernel.MAX_GENOTYPE then s + (w : ℚ) else s) a =
      a + (n : ℚ) * (v : ℚ) := by
    induction n with
    | zero => intro a; simp
    | succ n ih =>
      intro a
      rw [List.replicate_succ, List.foldl_cons, if_pos hv, ih]
      push_cast
      ring
  simpa [GenomicsKernel.colSum] using key 0

/-- Count of a constant valid `u8` column. -/
theorem colCount_replicate (n v : ℕ) (hv : v ≤ GenomicsKernel.MAX_GENOTYPE) :
    GenomicsKernel.colCount (List.replicate n v) = n := by
  have key : ∀ (a : ℕ), (List.replicate n v).foldl
      (fun (c : ℕ) (w : ℕ) =>
        if w ≤ GenomicsKernel.MAX_GENOTYPE then c + 1 else c) a = a + n := by
    induction n with
    | zero => intro a; simp
    | succ n ih =>
      intro a
      rw [List.replicate_succ, List.foldl_cons, if_pos hv, ih]
      omega
  simpa [GenomicsKernel.colCount] using key 0

/-- Frequency of a marker fixed at a valid call `v` is exactly `v / 2`. -/
theorem colFreq_replicate (n v : ℕ) (hn : 0 < n)
    (hv : v ≤ GenomicsKernel.MAX_GENOTYPE) :
    GenomicsKernel.colFreq (List.replicate n v) = (v : ℚ) / 2 := by
  rw [GenomicsKernel.colFreq, colCount_replicate n v hv, colSum_replicate n v hv,
    if_pos hn, GenomicsKernel.PLOIDY]
  have hn' : (n : ℚ) ≠ 0 := Nat.cast_ne_zero.2 hn.ne'
  field_simp
  ring

/-- Every entry of the centered matrix of `calculate_g_matrix` vanishes when
every marker column is constant or entirely missing. -/
theorem gb_z_all_zero (markers : List ℕ) (m n : ℕ) (hm : 0 < m)
    (hfix : ∀ j < m,
      (∃ v, ∀ i < n, markers.getD (i * m + j) 0 = v) ∨
      (∀ i < n, GenomicsKernel.MAX_GENOTYPE < markers.getD (i * m + j) 0)) :
    ∀ t, (GenomicsKernel.zList markers m n).getD t 0 = 0 := by
  intro t
  rcases Nat.lt_or_ge t (n * m) with ht | ht
  · rw [GenomicsKernel.zList, getD_range_map _ _ ht, GenomicsKernel.zEntry]
    have hj : t % m < m := Nat.mod_lt _ hm
    have hi : t / m < n := (Nat.div_lt_iff_lt_mul hm).2 ht
    have hidx : (t / m) * m + t % m = t := Nat.div_add_mod' t m
    rcases hfix (t % m) hj with ⟨v, hv⟩ | hinv
    · have hgeno : markers.getD t 0 = v := by
        rw [← hidx]
        exact hv (t / m) hi
      rcases le_or_lt v GenomicsKernel.MAX_GENOTYPE with hvv | hvv
      · have hcol : GenomicsKernel.gbCol markers m n (t % m) =
            List.replicate n v :=
          range_map_eq_replicate n _ v (fun i hi2 => hv i hi2)
        have hn0 : 0 < n := Nat.lt_of_le_of_lt (Nat.zero_le _) hi
        rw [hgeno, if_pos hvv, GenomicsKernel.freqAt, hcol,
          colFreq_replicate n v hn0 hvv, GenomicsKernel.PLOIDY]
        ring
      · rw [hgeno, if_neg (not_le.2 hvv)]
    · have hbig : GenomicsKernel.MAX_GENOTYPE < markers.getD t 0 := by
        rw [← hidx]
        exact hinv (t / m) hi
      rw [if_neg (not_le.2 hbig)]
  · exact getD_range_map_ge _ _ ht

/-- A dot product over an all-zero centered matrix is zero. -/
theorem gDot_zero (z : List ℚ) (m i j : ℕ) (hz : ∀ t, z.getD t 0 = 0) :
    GenomicsKernel.gDot z m i j = 0 := by
  rw [GenomicsKernel.gDot]
  apply foldl_fixed
  intro b k _
  rw [hz (i * m + k), hz (j * m + k)]
  ring

/-- Sum of a constant valid (`≥ 0`) `i32` column. -/
theorem colSumZ_replicate (n : ℕ) (v : ℤ) (hv : 0 ≤ v) :
    Wasm.colSumZ (List.replicate n v) = (n : ℚ) * (v : ℚ) := by
  have key : ∀ (a : ℚ), (List.replicate n v).foldl
      (fun (s : ℚ) (w : ℤ) => if 0 ≤ w then s + (w : ℚ) else s) a =
      a + (n : ℚ) * (v : ℚ) := by
    induction n with
    | zero => intro a; simp
    | succ n ih =>
      intro a
      rw [List.replicate_succ, List.foldl_cons, if_pos hv, ih]
      push_cast
      ring
  simpa [Wasm.colSumZ] using key 0

/-- Count of a constant valid `i32` column. -/
theorem colCountZ_replicate (n : ℕ) (v : ℤ) (hv : 0 ≤ v) :
    Wasm.colCountZ (List.replicate n v) = n := by
  have key : ∀ (a : ℕ), (List.replicate n v).foldl
      (fun (c : ℕ) (w : ℤ) => if 0 ≤ w then c + 1 else c) a = a + n := by
    induction n with
    | zero => intro a; simp
    | succ n ih =>
      intro a
      rw [List.replicate_succ, List.foldl_cons, if_pos hv, ih]
      omega
  simpa [Wasm.colCountZ] using key 0

/-- Frequency of an `i32` marker fixed at any valid call `v ≥ 0` is `v / 2`
(also for out-of-range calls such as `3`, which is why its centered entry
still vanishes). -/
theorem colFreqZ_replicate (n : ℕ) (v : ℤ) (hn : 0 < n) (hv : 0 ≤ v) :
    Wasm.colFreqZ (List.replicate n v) = (v : ℚ) / 2 := by
  rw [Wasm.colFreqZ, colCountZ_replicate n v hv, colSumZ_replicate n v hv,
    if_pos hn]
  have hn' : (n : ℚ) ≠ 0 := Nat.cast_ne_zero.2 hn.ne'
  field_simp
  ring

/-- Every entry of the centered matrix of `calculate_grm` vanishes when every
marker column is constant or entirely missing. -/
theorem grm_z_all_zero (genotypes : List ℤ) (n m : ℕ) (hm : 0 < m)
    (hfix : ∀ j < m,
      (∃ v : ℤ, ∀ i < n, genotypes.getD (i * m + j) 0 = v) ∨
      (∀ i < n, genotypes.getD (i * m + j) 0 < 0)) :
    ∀ t, (Wasm.grmZ genotypes n m).getD t 0 = 0 := by
  intro t
  rcases Nat.lt_or_ge t (n * m) with ht | ht
  · rw [Wasm.grmZ, getD_range_map _ _ ht]
    have hj : t % m < m := Nat.mod_lt _ hm
    have hi : t / m < n := (Nat.div_lt_iff_lt_mul hm).2 ht
    have hidx : (t / m) * m + t % m = t := Nat.div_add_mod' t m
    rcases hfix (t % m) hj with ⟨v, hv⟩ | hinv
    · have hgeno : genotypes.getD t 0 = v := by
        rw [← hidx]
        exact hv (t / m) hi
      rcases le_or_lt 0 v with hvv | hvv
      · have hcol : Wasm.grmCol genotypes n m (t % m) = List.replicate n v :=
          range_map_eq_replicate n _ v (fun i hi2 => hv i hi2)
        have hn0 : 0 < n := Nat.lt_of_le_of_lt (Nat.zero_le _) hi
        rw [hgeno, if_pos hvv, hcol, colFreqZ_replicate n v hn0 hvv]
        ring
      · rw [hgeno, if_neg (not_le.2 hvv)]
    · have hneg : genotypes.getD t 0 < 0 := by
        rw [← hidx]
        exact hinv (t / m) hi
      rw [if_neg (not_le.2 hneg)]
  · exact getD_range_map_ge _ _ ht

/-- A dot product over an all-zero centered matrix is zero (grm builder). -/
theorem grmDot_zero (z : List ℚ) (m i j : ℕ) (hz : ∀ t, z.getD t 0 = 0) :
    Wasm.grmDot z m i j = 0 := by
  rw [Wasm.grmDot]
  apply foldl_fixed
  intro b k _
  rw [hz (i * m + k), hz (j * m + k)]
  ring

/-- C4 (amended): whenever every marker is fixed (one value repeated for all
individuals) or entirely missing, BOTH builders return the all-zero n×n
matrix as defined behaviour — `calculate_g_matrix` via its explicit
zero-scale early return or because every centered entry vanishes, and
`calculate_grm` because every centered entry vanishes (its zero scale is
replaced by `1`, so "scale exactly zero implies the zero matrix" is NOT
true of it, per the counterexample). -/
theorem C4_amended_fixed_or_missing :
    (∀ (markers : List ℕ) (m n : ℕ), 0 < m → 0 < n →
      markers.length = m * n →
      (∀ j < m, (∃ v, ∀ i < n, markers.getD (i * m + j) 0 = v) ∨
        (∀ i < n, GenomicsKernel.MAX_GENOTYPE < markers.getD (i * m + j) 0)) →
      GenomicsKernel.calculate_g_matrix markers m n =
        List.replicate (n * n) 0) ∧
    (∀ (genotypes : List ℤ) (n m : ℕ), 0 < n → 0 < m →
      genotypes.length = n * m →
      (∀ j < m, (∃ v : ℤ, ∀ i < n, genotypes.getD (i * m + j) 0 = v) ∨
        (∀ i < n, genotypes.getD (i * m + j) 0 < 0)) →
      (Wasm.calculate_grm genotypes n m).map Wasm.GRMResult.matrix =
        some (List.replicate (n * n) 0)) := by
  constructor
  · intro markers m n hm hn hlen hfix
    rw [GenomicsKernel.calculate_g_matrix, if_neg (by omega), if_neg (by omega)]
    split_ifs with hscale
    · rfl
    · show (List.range (n * n)).map _ = _
      apply range_map_eq_replicate
      intro idx _
      rw [gDot_zero _ _ _ _ (gb_z_all_zero markers m n hm hfix), zero_div]
  · intro genotypes n m hn hm hlen hfix
    rw [Wasm.calculate_grm, if_neg (by omega)]
    show some _ = some _
    congr 1
    show (List.range (n * n)).map _ = _
    apply range_map_eq_replicate
    intro idx _
    rw [grmDot_zero _ _ _ _ (grm_z_all_zero genotypes n m hm hfix), zero_div]

/-- C4 witness: genotypes with one marker fixed at `1` and one entirely
missing, for both builders. -/
theorem C4_witness :
    GenomicsKernel.calculate_g_matrix [1, 5, 1, 5] 2 2 =
      List.replicate (2 * 2) 0 ∧
    (Wasm.calculate_grm [1, -1, 1, -1] 2 2).map Wasm.GRMResult.matrix =
      some (List.replicate (2 * 2) 0) := by
  constructor
  · apply C4_amended_fixed_or_missing.1 [1, 5, 1, 5] 2 2 (by decide) (by decide)
      (by decide)
    intro j hj
    interval_cases j
    · exact Or.inl ⟨1, by decide⟩
    · exact Or.inr (by decide)
  · apply C4_amended_fixed_or_missing.2 [1, -1, 1, -1] 2 2 (by decide)
      (by decide) (by decide)
    intro j hj
    interval_cases j
    · exact Or.inl ⟨1, by decide⟩
    · exact Or.inr (by decide)

/-! ## Claim C9 — the power-iteration eigensolver -/

/-- One unfolding of the bounded power-iteration loop. -/
theorem powerIter_succ (a : List ℚ) (n fuel : ℕ) (v : List ℚ) :
    Wasm.powerIter a n (fuel + 1) v =
      if Wasm.normQ (Wasm.matvec a n v) < 1 / 10 ^ 10 then v
      else Wasm.powerIter a n fuel
        ((Wasm.matvec a n v).map (· / Wasm.normQ (Wasm.matvec a n v))) := rfl

/-- The loop breaks out immediately (keeping the current vector) when the
image's norm is below the threshold. -/
theorem powerIter_break (a : List ℚ) (n fuel : ℕ) (v : List ℚ)
    (h : Wasm.normQ (Wasm.matvec a n v) < 1 / 10 ^ 10) :
    Wasm.powerIter a n (fuel + 1) v = v := by
  rw [powerIter_succ, if_pos h]

/-- On a two-cycle `v → w → v` of the normalized iteration (the generic
behaviour on an eigenvector of a negative eigenvalue), an even iteration
budget returns the starting vector. -/
theorem powerIter_twoCycle (a : List ℚ) (n : ℕ) (v w : List ℚ)
    (hv : ¬ Wasm.normQ (Wasm.matvec a n v) < 1 / 10 ^ 10)
    (hw : ¬ Wasm.normQ (Wasm.matvec a n w) < 1 / 10 ^ 10)
    (hvw : (Wasm.matvec a n v).map (· / Wasm.normQ (Wasm.matvec a n v)) = w)
    (hwv : (Wasm.matvec a n w).map (· / Wasm.normQ (Wasm.matvec a n w)) = v)
    (fuel : ℕ) : Wasm.powerIter a n (2 * fuel) v = v := by
  induction fuel with
  | zero => rfl
  | succ fuel ih =>
    have h2 : 2 * (fuel + 1) = 2 * fuel + 1 + 1 := by ring
    rw [h2, powerIter_succ, if_neg hv, hvw, powerIter_succ, if_neg hw, hwv]
    exact ih

/-- The deterministic draw stream used to analyse C9: every extraction draws
`0.9` then `0.5`, so the starting vector is exactly `(1, 0)`. -/
def c9draws : ℕ → ℕ → ℚ := fun _ i => if i = 0 then 9 / 10 else 1 / 2

/-- C9 counterexample: on `A = [[-2, 0], [0, 1]]` with `k = 2` and start
vectors `(1, 0)`, the first extraction finds the Rayleigh quotient `-2`
and reports `|−2| = 2`.  The CODE deflates by the SIGNED `-2`, leaving
`[[0,0],[0,1]]`, whose second extraction collapses (`norm 0 < 1e-10`) to
eigenvalue `0` — output `[2, 0]`.  The claim's procedure deflates by the
reported eigenvalue `2`, leaving `[[-4,0],[0,1]]`, whose second
extraction reports `4` — output `[2, 4]`. -/
theorem C9_counterexample :
    (Wasm.calculate_eigenvalues [-2, 0, 0, 1] 2 2 c9draws).eigenvalues =
      [2, 0] ∧
    Wasm.eigenvaluesClaimAbs [-2, 0, 0, 1] 2 2 c9draws = [2, 4] ∧
    ([2, 0] : List ℚ) ≠ [2, 4] := by
  have hinit0 : Wasm.initVec 2 (c9draws 0) = [1, 0] := by decide
  have hinit1 : Wasm.initVec 2 (c9draws 1) = [1, 0] := by decide
  have hA : Wasm.powerIter [-2, 0, 0, 1] 2 100 [1, 0] = [1, 0] := by
    have h := powerIter_twoCycle [-2, 0, 0, 1] 2 [1, 0] [-1, 0]
      (by decide) (by decide) (by decide) (by decide) 50
    simpa using h
  have hrayA : Wasm.rayleigh [-2, 0, 0, 1] 2 [1, 0] = -2 := by decide
  have hdeflA : Wasm.deflate [-2, 0, 0, 1] 2 (-2) [1, 0] = [0, 0, 0, 1] := by
    decide
  have hdeflAbs : Wasm.deflate [-2, 0, 0, 1] 2 2 [1, 0] = [-4, 0, 0, 1] := by
    decide
  have hB : Wasm.powerIter [0, 0, 0, 1] 2 100 [1, 0] = [1, 0] :=
    powerIter_break [0, 0, 0, 1] 2 99 [1, 0] (by decide)
  have hrayB : Wasm.rayleigh [0, 0, 0, 1] 2 [1, 0] = 0 := by decide
  have hdeflB : Wasm.deflate [0, 0, 0, 1] 2 0 [1, 0] = [0, 0, 0, 1] := by decide
  have hC : Wasm.powerIter [-4, 0, 0, 1] 2 100 [1, 0] = [1, 0] := by
    have h := powerIter_twoCycle [-4, 0, 0, 1] 2 [1, 0] [-1, 0]
      (by decide) (by decide) (by decide) (by decide) 50
    simpa using h
  have hrayC : Wasm.rayleigh [-4, 0, 0, 1] 2 [1, 0] = -4 := by decide
  have hdeflC : Wasm.deflate [-4, 0, 0, 1] 2 4 [1, 0] = [-8, 0, 0, 1] := by
    decide
  have e0 : Wasm.eigStep 2 c9draws (([] : List ℚ), [-2, 0, 0, 1]) 0 =
      ([2], [0, 0, 0, 1]) := by
    simp only [Wasm.eigStep]
    rw [hinit0, hA, hrayA, hdeflA]
    norm_num
  have e1 : Wasm.eigStep 2 c9draws (([2] : List ℚ), [0, 0, 0, 1]) 1 =
      ([2, 0], [0, 0, 0, 1]) := by
    simp only [Wasm.eigStep]
    rw [hinit1, hB, hrayB, hdeflB]
    norm_num
  have f0 : Wasm.eigStepClaim 2 c9draws (([] : List ℚ), [-2, 0, 0, 1]) 0 =
      ([2], [-4, 0, 0, 1]) := by
    simp only [Wasm.eigStepClaim]
    rw [hinit0, hA, hrayA]
    norm_num [hdeflAbs]
  have f1 : Wasm.eigStepClaim 2 c9draws (([2] : List ℚ), [-4, 0, 0, 1]) 1 =
      ([2, 4], [-8, 0, 0, 1]) := by
    simp only [Wasm.eigStepClaim]
    rw [hinit1, hC, hrayC]
    norm_num [hdeflC]
  refine ⟨?_, ?_, by decide⟩
  · show ((List.range (min 2 2)).foldl (Wasm.eigStep 2 c9draws)
        (([] : List ℚ), [-2, 0, 0, 1])).1 = [2, 0]
    rw [show List.range (min 2 2) = [0, 1] from rfl, List.foldl_cons,
      List.foldl_cons, List.foldl_nil, e0, e1]
  · show ((List.range (min 2 2)).foldl (Wasm.eigStepClaim 2 c9draws)
        (([] : List ℚ), [-2, 0, 0, 1])).1 = [2, 4]
    rw [show List.range (min 2 2) = [0, 1] from rfl, List.foldl_cons,
      List.foldl_cons, List.foldl_nil, f0, f1]

/-- The extraction fold of `calculate_eigenvalues` equals the direct
recursion of the claim-worded (signed-deflation) procedure. -/
theorem eigFold_eq_spec (n : ℕ) (draws : ℕ → ℕ → ℚ) :
    ∀ (c t : ℕ) (a pre : List ℚ),
      ((List.range' t c).foldl (Wasm.eigStep n draws) (pre, a)).1 =
        pre ++ Wasm.specEigList n draws t c a := by
  intro c
  induction c with
  | zero =>
    intro t a pre
    simp [Wasm.specEigList]
  | succ c ih =>
    intro t a pre
    rw [List.range'_succ, List.foldl_cons]
    show ((List.range' (t + 1) c).foldl (Wasm.eigStep n draws)
      (Wasm.eigStep n draws (pre, a) t)).1 = _
    rw [Wasm.eigStep, ih]
    rw [Wasm.specEigList]
    simp

/-- C9 (amended): `calculate_eigenvalues` follows the claimed procedure —
random unit start vector, at most 100 multiply-and-normalize iterations
with the `1e-10` early stop, reported eigenvalue `|vᵗAv|` (hence every
reported eigenvalue is non-negative) — but deflates the working matrix by
the SIGNED Rayleigh quotient, not by the reported absolute value. -/
theorem C9_amended_power_iteration (matrix : List ℚ) (n k : ℕ)
    (draws : ℕ → ℕ → ℚ) :
    (Wasm.calculate_eigenvalues matrix n k draws).eigenvalues =
      Wasm.specEigList n draws 0 (min k n) matrix ∧
    ∀ idx : ℕ,
      0 ≤ (Wasm.calculate_eigenvalues matrix n k draws).eigenvalues.getD idx 0 := by
  have hmain : (Wasm.calculate_eigenvalues matrix n k draws).eigenvalues =
      Wasm.specEigList n draws 0 (min k n) matrix := by
    show ((List.range (min k n)).foldl (Wasm.eigStep n draws)
      (([] : List ℚ), matrix)).1 = _
    rw [List.range_eq_range']
    simpa using eigFold_eq_spec n draws (min k n) 0 matrix []
  refine ⟨hmain, ?_⟩
  have key : ∀ (c t : ℕ) (a : List ℚ) (idx : ℕ),
      0 ≤ (Wasm.specEigList n draws t c a).getD idx 0 := by
    intro c
    induction c with
    | zero =>
      intro t a idx
      simp [Wasm.specEigList]
    | succ c ih =>
      intro t a idx
      rw [Wasm.specEigList]
      cases idx with
      | zero => simp [abs_nonneg]
      | succ idx => simpa using ih (t + 1) _ idx
  intro idx
  rw [hmain]
  exact key _ _ _ _

end Bijmantra
